import Mathlib

/-!
Shallow embedding of the query-orchestration and ranking engine of the
College Buddy assistant (src/assistant.py), together with theorems settling
the frozen specification claims.

Conventions: Python strings are Lean `String`s; Python floats arising from
`difflib.SequenceMatcher.ratio` are modelled exactly as rationals `ℚ`;
external LLM / embedding / vector-index collaborators are abstracted as
function parameters (oracles); the SQLite `documents` table is a list of
rows in relational-store row order.
-/

namespace CollegeBuddy

/-! ### Python string primitives -/

/-- Python / `re` ASCII whitespace class used by `str.strip`, `str.split()`
and the `\s` regex class. -/
def isPyWs (c : Char) : Bool :=
  c = ' ' || c = '\t' || c = '\n' || c = '\r' || c = Char.ofNat 11 || c = Char.ofNat 12

/-- Remove leading and trailing characters satisfying `p` (Python `str.strip`). -/
def stripChars (p : Char → Bool) (l : List Char) : List Char :=
  ((l.dropWhile p).reverse.dropWhile p).reverse

/-- Python `str.strip()` on a line (ASCII whitespace). -/
def pyStrip (s : String) : String :=
  ⟨stripChars isPyWs s.data⟩

/-- Python `str.strip('#')`: removes `#` characters from both ends. -/
def stripHash (s : String) : String :=
  ⟨stripChars (fun c => c = '#') s.data⟩

/-- ASCII lowercasing of one character, as applied by Python `str.lower`
and by SQLite's case-insensitive `LIKE` on the repository's ASCII data. -/
def lowerChar (c : Char) : Char :=
  if 'A' ≤ c ∧ c ≤ 'Z' then Char.ofNat (c.toNat + 32) else c

/-- Python `str.lower` (ASCII fragment). -/
def pyLower (s : String) : String :=
  ⟨s.data.map lowerChar⟩

/-- Accumulator-based splitting of a character list at a separator
character; `cur` holds the current piece reversed. -/
def splitCharAux (sep : Char) : List Char → List Char → List String
  | [], cur => [⟨cur.reverse⟩]
  | c :: cs, cur =>
    if c = sep then ⟨cur.reverse⟩ :: splitCharAux sep cs []
    else splitCharAux sep cs (c :: cur)

/-- Python `str.split(sep)` for a one-character separator, keeping empty
pieces (so the empty string splits to `[""]`). -/
def splitOnChar (sep : Char) (s : String) : List String :=
  splitCharAux sep s.data []

/-- Python `sep.join(pieces)`. -/
def joinWith (sep : String) : List String → String
  | [] => ""
  | x :: xs => xs.foldl (fun acc y => acc ++ sep ++ y) x

/-- Boolean list-prefix test. -/
def isPrefixB : List Char → List Char → Bool
  | [], _ => true
  | _ :: _, [] => false
  | a :: as, b :: bs => a = b && isPrefixB as bs

/-- Boolean substring (contiguous) test: does the first list occur inside
the second? -/
def isInfixB : List Char → List Char → Bool
  | n, [] => isPrefixB n []
  | n, c :: rest => isPrefixB n (c :: rest) || isInfixB n rest

/-- The SQLite filter `tags LIKE '%keyword%'`: case-insensitive substring
containment of the keyword in the tags column (the repository's keywords
contain no `%`/`_` wildcard characters). -/
def likeMatch (tags kw : String) : Bool :=
  isInfixB (pyLower kw).data (pyLower tags).data

/-! ### difflib.SequenceMatcher ratio (Gestalt similarity)

`SequenceMatcher(None, a, b).ratio()` is `2*M/(|a|+|b|)` where `M` is the
total size of the matching blocks found by recursively taking the longest
matching block (maximal common run; ties resolved towards the smallest
start index in `a`, then in `b`).  Faithful to difflib for inputs below its
autojunk threshold (`|b| < 200`), which covers every string this repository
ever scores. -/

/-- Length of the common run of the two lists starting at their heads. -/
def runLen : List Char → List Char → Nat
  | a :: as, b :: bs => if a = b then runLen as bs + 1 else 0
  | _, _ => 0

/-- Pick the better of two candidate blocks `(i, j, k)`: strictly longer
wins; candidates are generated in lexicographic `(i, j)` order so the
first maximal one is kept, exactly as difflib's scan does. -/
def betterBlock (best cand : Nat × Nat × Nat) : Nat × Nat × Nat :=
  if best.2.2 < cand.2.2 then cand else best

/-- The longest matching block of two character lists, as a triple
`(start in a, start in b, length)`; `(0, 0, 0)` when nothing matches. -/
def findLongest (a b : List Char) : Nat × Nat × Nat :=
  ((List.range a.length).flatMap (fun i =>
    (List.range b.length).map (fun j => (i, j, runLen (a.drop i) (b.drop j))))).foldl
    betterBlock (0, 0, 0)

/-- Total number of matched characters across difflib's recursive
matching-block decomposition.  `fuel` bounds the recursion depth; any
`fuel ≥ |a| + |b| + 1` is enough since each sub-interval pair is strictly
smaller. -/
def totalMatches : Nat → List Char → List Char → Nat
  | 0, _, _ => 0
  | fuel + 1, a, b =>
    let t := findLongest a b
    if t.2.2 = 0 then 0
    else
      totalMatches fuel (a.take t.1) (b.take t.2.1) + t.2.2 +
        totalMatches fuel (a.drop (t.1 + t.2.2)) (b.drop (t.2.1 + t.2.2))

/-- `SequenceMatcher(None, a, b).ratio()` as an exact rational:
`2*M/(|a|+|b|)`, or `1` when both strings are empty. -/
def gestaltSim (a b : String) : ℚ :=
  let la := a.data.length
  let lb := b.data.length
  if la + lb = 0 then 1
  else mkRat (2 * (totalMatches (la + lb + 1) a.data b.data)) (la + lb)

/-! ### Relational store and MetadataMatcher -/

/-- One row of the SQLite `documents` table: `(id, title, tags, links)`.
`id` is the integer primary key, so rows of a table are pairwise distinct
and `SELECT DISTINCT` is a no-op. -/
structure Row where
  id : Nat
  title : String
  tags : String
  link : String
deriving DecidableEq

/-- The score a single keyword contributes to a row:
`sum(SequenceMatcher(None, keyword.lower(), tag.lower()).ratio() for tag in row[2].split(','))`. -/
def rowScore (kw : String) (r : Row) : ℚ :=
  ((splitOnChar ',' r.tags).map (fun tag => gestaltSim (pyLower kw) (pyLower tag))).sum

/-- The rows fetched by `SELECT DISTINCT id, title, tags, links FROM
documents WHERE tags LIKE '%kw%'`, in store row order. -/
def execLike (db : List Row) (kw : String) : List Row :=
  db.filter (fun r => likeMatch r.tags kw)

/-- The `results` accumulator of `query_db_for_keywords` before sorting:
for each keyword in order, a `(score, row)` pair is appended for every
fetched row. -/
def dbScores (db : List Row) (keywords : List String) : List (ℚ × Row) :=
  keywords.foldl
    (fun results kw => results ++ (execLike db kw).map (fun r => (rowScore kw r, r))) []

/-- Stable insertion step for descending sort by score: the new element
goes after every earlier element whose score is at least as large. -/
def insertDesc (x : ℚ × Row) : List (ℚ × Row) → List (ℚ × Row)
  | [] => [x]
  | y :: ys => if x.1 < y.1 then y :: insertDesc x ys else x :: y :: ys

/-- Python's `list.sort(reverse=True, key=lambda x: x[0])`: a stable sort
into non-increasing score order. -/
def sortDesc : List (ℚ × Row) → List (ℚ × Row)
  | [] => []
  | x :: xs => insertDesc x (sortDesc xs)

/-- `query_db_for_keywords`: accumulate per-keyword scores over the rows
fetched by the LIKE filter, stable-sort descending by score, keep the top 3. -/
def queryDbForKeywords (db : List Row) (keywords : List String) : List (ℚ × Row) :=
  (sortDesc (dbScores db keywords)).take 3

/-! ### RetrievalAggregator -/

/-- The per-intent record built by `query_for_multiple_intents`. -/
structure IntentData where
  dbResults : List (ℚ × Row)
  pineconeContext : String
deriving DecidableEq

/-- Loop body of `query_for_multiple_intents`: `acc` is the running
`all_db_results` set (its only use is the document ids of its members);
each intent's fresh matches are filtered against the ids already seen,
then added to the accumulator. `pine` abstracts `query_pinecone`. -/
def qfmiAux (db : List Row) (pine : String → String) :
    List (String × List String) → List (ℚ × Row) → List (String × IntentData)
  | [], _ => []
  | (intent, kws) :: rest, acc =>
    let dbr := queryDbForKeywords db kws
    let newDbr := dbr.filter (fun p => decide (p.2.id ∉ acc.map (fun q => q.2.id)))
    (intent, ⟨newDbr, pine (joinWith " " kws)⟩) ::
      qfmiAux db pine rest (acc ++ newDbr)

/-- `query_for_multiple_intents`. -/
def queryForMultipleIntents (db : List Row) (pine : String → String)
    (intentKeywords : List (String × List String)) : List (String × IntentData) :=
  qfmiAux db pine intentKeywords []

/-! ### Tokenizer collaborator and ContextAssembler -/

/-- The tiktoken collaborator, abstracted: `encode` a string into tokens of
type `τ` and `decode` a token list back to a string. -/
structure Tokenizer (τ : Type) where
  encode : String → List τ
  decode : List τ → String

/-- `truncate_text`: encode, keep the first `maxTokens` tokens, decode. -/
def truncateText {τ : Type} (tok : Tokenizer τ) (text : String) (maxTokens : Nat) : String :=
  tok.decode ((tok.encode text).take maxTokens)

/-- `num_tokens_from_string`: length of the encoding. -/
def numTokensFromString {τ : Type} (tok : Tokenizer τ) (s : String) : Nat :=
  (tok.encode s).length

/-- A concrete tokenizer (one token per character) used to instantiate
hypotheses about the tokenizer collaborator on closed inputs. -/
def charTok : Tokenizer Char :=
  ⟨fun s => s.data, fun l => ⟨l⟩⟩

/-- The context string assembled by `generate_multi_intent_answer`:
one labelled block per intent, newline-joined.  `showDb` abstracts
Python's `str()` rendering of the `db_results` list. -/
def assembleContext (showDb : List (ℚ × Row) → String)
    (intentData : List (String × IntentData)) : String :=
  joinWith "\n" (intentData.map (fun e =>
    "Intent: " ++ e.1 ++ "\nDB Results: " ++ showDb e.2.dbResults ++
      "\nPinecone Context: " ++ e.2.pineconeContext))

/-! ### Orchestration: identify_intents and get_answer -/

/-- External LLM collaborators consumed by the pipeline, plus the
`str()` renderer for db results. -/
structure Oracles where
  keywordsFor : String → List String
  extractKeywords : String → List String
  pinecone : String → String
  synthesize : String → String → String
  showDb : List (ℚ × Row) → String

/-- `identify_intents`: strip the completion; an empty completion yields
the empty intent list. `llm` abstracts the chat call. -/
def identifyIntents (llm : String → String) (query : String) : List String :=
  let intent := pyStrip (llm query)
  if intent = "" then [] else [intent]

/-- `generate_multi_intent_answer`: assemble the context, truncate it to
4000 tokens, and hand query plus truncated context to the synthesis call. -/
def generateMultiIntentAnswer {τ : Type} (tok : Tokenizer τ) (o : Oracles)
    (query : String) (intentData : List (String × IntentData)) : String :=
  o.synthesize query (truncateText tok (assembleContext o.showDb intentData) 4000)

/-- `list(set(...))`: deduplicate, forgetting multiplicity (Python's set
order is irrelevant to every claim; first occurrences are kept here). -/
def pySetList (l : List String) : List String :=
  l.eraseDups

/-- `get_answer`, given the intent list produced by `identify_intents`.
Returns `none` when the Python code raises: with an empty intent list the
expression `intent_keywords[intents[0]]` raises `IndexError`. -/
def getAnswer {τ : Type} (db : List Row) (tok : Tokenizer τ) (o : Oracles)
    (query : String) (intents : List String) :
    Option (String × List (String × IntentData) × List String) :=
  let intentKeywords := intents.map (fun i => (i, o.keywordsFor i))
  let intentData := queryForMultipleIntents db o.pinecone intentKeywords
  let initialAnswer := generateMultiIntentAnswer tok o query intentData
  let responseKeywords := o.extractKeywords initialAnswer
  match intents with
  | [] => none
  | i0 :: _ =>
    let allKeywords := pySetList (o.keywordsFor i0 ++ responseKeywords)
    let expanded := queryForMultipleIntents db o.pinecone [(query, allKeywords)]
    some (generateMultiIntentAnswer tok o query expanded, expanded, allKeywords)

/-! ### safe_run_tree

The decorator's `try` block enters the trace context, calls the wrapped
function, then reports the run end; its `except` block catches any
exception — including one raised by the wrapped function itself — and
calls the wrapped function again outside any handler.  The wrapped
function is modelled as `f : Nat → Except ε α`, giving the outcome of its
`n`-th invocation, so double invocation and invocation-dependent outcomes
are observable. -/

/-- Health of the tracing machinery: does entering the `trace` context
succeed, and does `run.end` succeed (the latter only runs after the
wrapped call returned normally). -/
structure TraceEnv where
  enterOk : Bool
  endOk : Bool

/-- `safe_run_tree`'s wrapper applied to `f`: the resulting outcome and
the number of times `f` was invoked. -/
def safeRunTree {ε α : Type} (env : TraceEnv) (f : Nat → Except ε α) :
    Except ε α × Nat :=
  if env.enterOk then
    match f 0 with
    | .error _ => (f 1, 2)
    | .ok v => if env.endOk then (.ok v, 1) else (f 1, 2)
  else (f 0, 1)

/-! ### ResponseFormatter -/

/-- The tagged chunk variants emitted by `format_response`. -/
inductive Chunk where
  | bullet (text : String)
  | number (text : String)
  | header (level : Nat) (text : String)
  | text (t : String)
deriving DecidableEq

/-- The text field of a chunk, ignoring tag and header level. -/
def chunkText : Chunk → String
  | .bullet t => t
  | .number t => t
  | .header _ t => t
  | .text t => t

/-- Match of `re.match(r'^\s*[\-\*]\s', line)`: optional whitespace, a
`-` or `*` marker, then one whitespace character. -/
def isBulletLine (l : List Char) : Bool :=
  match l.dropWhile isPyWs with
  | c :: d :: _ => (c = '-' || c = '*') && isPyWs d
  | _ => false

/-- Match of `re.match(r'^\s*\d+\.\s', line)`: optional whitespace, one or
more digits, a dot, then one whitespace character. -/
def isNumberLine (l : List Char) : Bool :=
  let rest := l.dropWhile isPyWs
  let afterDigits := rest.dropWhile (fun c => c.isDigit)
  decide (rest.takeWhile (fun c => c.isDigit) ≠ []) &&
    match afterDigits with
    | '.' :: d :: _ => isPyWs d
    | _ => false

/-- Test `line.strip().startswith('#')`: the stripped line is nonempty and
its first character is `#`. -/
def isHeaderLine (l : List Char) : Bool :=
  match stripChars isPyWs l with
  | c :: _ => c = '#'
  | [] => false

/-- One iteration of `format_response`'s loop over a line. -/
def classifyLine (line : String) : Chunk :=
  if isBulletLine line.data then .bullet (pyStrip line)
  else if isNumberLine line.data then .number (pyStrip line)
  else if isHeaderLine line.data then
    .header ((stripChars isPyWs line.data).takeWhile (fun c => c = '#')).length
      (pyStrip (stripHash line))
  else .text (pyStrip line)

/-- `format_response`: split on newlines, classify each line. -/
def formatResponse (answer : String) : List Chunk :=
  (splitOnChar '\n' answer).map classifyLine

/-- The per-line text normalisation that `format_response` actually
applies to the text field: stripping, with `#` ends additionally removed
on header lines. -/
def normalizeLine (line : String) : String :=
  if ¬ isBulletLine line.data ∧ ¬ isNumberLine line.data ∧ isHeaderLine line.data then
    pyStrip (stripHash line)
  else pyStrip line

/-! ### StreamingPresenter -/

/-- Python `str.split()`: words separated by runs of whitespace, with no
empty words. -/
def splitWsAux : List Char → List (List Char)
  | [] => []
  | c :: cs =>
    if isPyWs c then splitWsAux cs
    else (c :: cs.takeWhile (fun d => ¬ isPyWs d)) ::
      splitWsAux (cs.dropWhile (fun d => ¬ isPyWs d))
termination_by l => l.length
decreasing_by
  · simp only [List.length_cons]; omega
  · simp only [List.length_cons]
    exact Nat.lt_succ_of_le (List.Sublist.length_le (List.dropWhile_sublist _))

/-- Python `content.split()` on a string. -/
def wordsOf (s : String) : List String :=
  (splitWsAux s.data).map (fun l => ⟨l⟩)

/-- Groups of five successive words, as produced by
`range(0, len(words), 5)` with slices `words[i:i+5]`. -/
def windows5 : List String → List (List String)
  | [] => []
  | w :: ws => ((w :: ws).take 5) :: windows5 ((w :: ws).drop 5)
termination_by l => l.length
decreasing_by simp only [List.length_drop, List.length_cons]; omega

/-- The yields of the word-window loop of a `text` chunk: returns the
buffer after the loop and the list of buffers yielded, one per window. -/
def textYields (buf : String) : List (List String) → String × List String
  | [] => (buf, [])
  | g :: gs =>
    let b := buf ++ joinWith " " g ++ " "
    let r := textYields b gs
    (r.1, b :: r.2)

/-- The yields produced for one chunk by `stream_formatted_response`,
starting from buffer `buf`: the new buffer and the yielded buffers in
order.  `sh` abstracts Python's string formatting of the header content
tuple `(level, text)`. -/
def chunkYields (sh : Nat → String → String) (buf : String) :
    Chunk → String × List String
  | .bullet t => (buf ++ t ++ "\n", [buf ++ t ++ "\n"])
  | .number t => (buf ++ t ++ "\n", [buf ++ t ++ "\n"])
  | .header lvl t =>
    (buf ++ sh lvl t ++ "\n" ++ "\n", [buf ++ sh lvl t ++ "\n" ++ "\n"])
  | .text t =>
    let r := textYields buf (windows5 (wordsOf t))
    (r.1 ++ "\n\n", r.2 ++ [r.1 ++ "\n\n"])

/-- All buffers yielded by `stream_formatted_response` over a chunk list,
starting from buffer `buf`. -/
def streamYieldsFrom (sh : Nat → String → String) (buf : String) :
    List Chunk → List String
  | [] => []
  | c :: cs =>
    let r := chunkYields sh buf c
    r.2 ++ streamYieldsFrom sh r.1 cs

/-- `stream_formatted_response`: the full sequence of yielded buffers,
starting from the empty buffer. -/
def streamFormattedResponse (sh : Nat → String → String) (chunks : List Chunk) :
    List String :=
  streamYieldsFrom sh "" chunks

/-- One string extends another: the second is the first with some suffix
appended.  This is the buffer-growth (prefix) relation of the claims. -/
def Extends (a b : String) : Prop :=
  ∃ t : List Char, b.data = a.data ++ t

/-! ### Concrete instances used by counterexamples and witnesses -/

/-- A one-row store whose tags match two distinct keywords. -/
def dbDup : List Row :=
  [⟨1, "doc", "ab", "link"⟩]

/-- A two-row store arranged so that two different keywords fetch the two
rows in the order opposite to store row order, with equal scores. -/
def dbTie : List Row :=
  [⟨1, "first", "a", "link"⟩, ⟨2, "second", "b", "link"⟩]

/-- A two-row store where only the first row's tags contain the keyword. -/
def dbAlpha : List Row :=
  [⟨1, "d1", "alpha", "link"⟩, ⟨2, "d2", "zzz", "link"⟩]

/-- Trivial collaborators, used to instantiate oracle parameters on
closed inputs. -/
def trivOracles : Oracles :=
  ⟨fun _ => [], fun _ => [], fun _ => "", fun _ _ => "", fun _ => ""⟩

/-- A wrapped call whose first invocation fails and whose second
invocation succeeds. -/
def flaky : Nat → Except Nat Nat :=
  fun n => if n = 0 then .error 7 else .ok 42

/-! ### Helper lemmas -/

theorem foldl_append_eq_flatMap {α β : Type} (f : α → List β) :
    ∀ (l : List α) (init : List β),
      l.foldl (fun acc x => acc ++ f x) init = init ++ l.flatMap f
  | [], init => by simp
  | x :: xs, init => by
    simp only [List.foldl_cons, List.flatMap_cons,
      foldl_append_eq_flatMap f xs (init ++ f x)]
    simp [List.append_assoc]

theorem dbScores_eq_flatMap (db : List Row) (keywords : List String) :
    dbScores db keywords =
      keywords.flatMap (fun kw => (execLike db kw).map (fun r => (rowScore kw r, r))) := by
  unfold dbScores
  simpa using foldl_append_eq_flatMap _ keywords []

theorem mem_insertDesc {x p : ℚ × Row} : ∀ {l : List (ℚ × Row)},
    p ∈ insertDesc x l ↔ p = x ∨ p ∈ l
  | [] => by simp [insertDesc]
  | y :: ys => by
    unfold insertDesc
    split
    · simp only [List.mem_cons, mem_insertDesc (l := ys)]
      tauto
    · simp only [List.mem_cons]

theorem insertDesc_perm (x : ℚ × Row) : ∀ (l : List (ℚ × Row)),
    List.Perm (insertDesc x l) (x :: l)
  | [] => List.Perm.refl _
  | y :: ys => by
    unfold insertDesc
    split
    · exact ((insertDesc_perm x ys).cons y).trans (List.Perm.swap x y ys)
    · exact List.Perm.refl _

theorem sortDesc_perm : ∀ (l : List (ℚ × Row)), List.Perm (sortDesc l) l
  | [] => List.Perm.refl _
  | x :: xs => (insertDesc_perm x (sortDesc xs)).trans ((sortDesc_perm xs).cons x)

theorem pairwise_insertDesc {x : ℚ × Row} : ∀ {l : List (ℚ × Row)},
    List.Pairwise (fun a b => b.1 ≤ a.1) l →
      List.Pairwise (fun a b => b.1 ≤ a.1) (insertDesc x l)
  | [], _ => List.pairwise_singleton _ x
  | y :: ys, h => by
    unfold insertDesc
    rcases List.pairwise_cons.mp h with ⟨hy, hys⟩
    split
    · refine List.pairwise_cons.mpr ⟨?_, pairwise_insertDesc hys⟩
      intro z hz
      rcases mem_insertDesc.mp hz with rfl | hz
      · exact le_of_lt (by assumption)
      · exact hy z hz
    · refine List.pairwise_cons.mpr ⟨?_, h⟩
      intro z hz
      rcases List.mem_cons.mp hz with rfl | hz
      · exact le_of_not_lt (by assumption)
      · exact le_trans (hy z hz) (le_of_not_lt (by assumption))

theorem sortDesc_pairwise : ∀ (l : List (ℚ × Row)),
    List.Pairwise (fun a b => b.1 ≤ a.1) (sortDesc l)
  | [] => List.Pairwise.nil
  | _ :: xs => pairwise_insertDesc (sortDesc_pairwise xs)

theorem filter_insertDesc (x : ℚ × Row) (s : ℚ) : ∀ (l : List (ℚ × Row)),
    (insertDesc x l).filter (fun p => decide (p.1 = s)) =
      if x.1 = s then x :: l.filter (fun p => decide (p.1 = s))
      else l.filter (fun p => decide (p.1 = s))
  | [] => by
    simp only [insertDesc, List.filter]
    split <;> simp_all
  | y :: ys => by
    unfold insertDesc
    split
    · rename_i hlt
      by_cases hx : x.1 = s
      · have hy : ¬ (y.1 = s) := by
          intro hy
          exact absurd (hx ▸ hy ▸ hlt) (lt_irrefl _)
        simp only [hx, if_pos, List.filter_cons, hy, decide_eq_true_eq,
          if_neg, filter_insertDesc x s ys]
        simp [hx, hy]
      · simp only [List.filter_cons, filter_insertDesc x s ys]
        simp [hx]
    · simp only [List.filter_cons]
      split <;> simp_all


theorem filter_sortDesc (s : ℚ) : ∀ (l : List (ℚ × Row)),
    (sortDesc l).filter (fun p => decide (p.1 = s)) =
      l.filter (fun p => decide (p.1 = s))
  | [] => rfl
  | x :: xs => by
    unfold sortDesc
    rw [filter_insertDesc x s (sortDesc xs), filter_sortDesc s xs, List.filter_cons]
    split <;> simp_all

theorem mem_dbScores {db : List Row} {keywords : List String} {p : ℚ × Row} :
    p ∈ dbScores db keywords ↔
      ∃ kw ∈ keywords, p.2 ∈ db ∧ likeMatch p.2.tags kw = true ∧ p.1 = rowScore kw p.2 := by
  rw [dbScores_eq_flatMap]
  simp only [List.mem_flatMap, List.mem_map, execLike, List.mem_filter]
  constructor
  · rintro ⟨kw, hkw, r, ⟨hr, hlike⟩, rfl⟩
    exact ⟨kw, hkw, hr, hlike, rfl⟩
  · rintro ⟨kw, hkw, hr, hlike, hscore⟩
    exact ⟨kw, hkw, p.2, ⟨hr, hlike⟩, by rw [← hscore]⟩

theorem qfmiAux_fresh (db : List Row) (pine : String → String) :
    ∀ (iks : List (String × List String)) (acc : List (ℚ × Row))
      (e : String × IntentData), e ∈ qfmiAux db pine iks acc →
      ∀ p ∈ e.2.dbResults, p.2.id ∉ acc.map (fun q => q.2.id)
  | [], _, _, he => by cases he
  | (intent, kws) :: rest, acc, e, he => by
    unfold qfmiAux at he
    rcases List.mem_cons.mp he with rfl | he
    · intro p hp
      have := (List.mem_filter.mp hp).2
      exact of_decide_eq_true this
    · intro p hp
      have := qfmiAux_fresh db pine rest _ e he p hp
      intro hacc
      exact this (by rw [List.map_append]; exact List.mem_append_left _ hacc)

theorem qfmiAux_pairwise (db : List Row) (pine : String → String) :
    ∀ (iks : List (String × List String)) (acc : List (ℚ × Row)),
      List.Pairwise
        (fun a b => ∀ p ∈ a.2.dbResults, ∀ q ∈ b.2.dbResults, p.2.id ≠ q.2.id)
        (qfmiAux db pine iks acc)
  | [], _ => List.Pairwise.nil
  | (intent, kws) :: rest, acc => by
    unfold qfmiAux
    refine List.pairwise_cons.mpr ⟨?_, qfmiAux_pairwise db pine rest _⟩
    intro e he p hp q hq
    have hfresh := qfmiAux_fresh db pine rest _ e he q hq
    intro heq
    apply hfresh
    rw [List.map_append]
    refine List.mem_append_right _ ?_
    exact heq ▸ List.mem_map.mpr ⟨p, hp, rfl⟩

theorem qfmiAux_length (db : List Row) (pine : String → String) :
    ∀ (iks : List (String × List String)) (acc : List (ℚ × Row)),
      (qfmiAux db pine iks acc).length = iks.length
  | [], _ => rfl
  | (intent, kws) :: rest, acc => by
    unfold qfmiAux
    simp [qfmiAux_length db pine rest]

/-
Batteries marks the rational operations irreducible for performance;
closed-term evaluation of scores in the counterexamples below needs them
definitionally transparent again.
-/
set_option allowUnsafeReducibility true

attribute [local semireducible] Rat.add Rat.mul Rat.inv Rat.sub

/-! ### Claim C1 -/

/-- C1 counterexample: with the single intent `"i"` and keywords
`["a", "b"]`, the one store row (id 1, tags `"ab"`) matches both keywords,
so the intent's `db_results` — and hence the union across all intents —
contains document id 1 twice, refuting "each document id appears at most
once across the union of all intents' returned db_results". -/
theorem c1_counterexample :
    ((queryForMultipleIntents dbDup (fun _ => "") [("i", ["a", "b"])]).flatMap
        (fun e => e.2.dbResults)).map (fun p => p.2.id) = [1, 1] ∧
      ¬ (((queryForMultipleIntents dbDup (fun _ => "") [("i", ["a", "b"])]).flatMap
        (fun e => e.2.dbResults)).map (fun p => p.2.id)).Nodup := by
  decide

/-- C1 (amended): across intents the deduplication holds — a document id
kept by an earlier-processed intent never reappears in any later intent's
`db_results` (the earlier entry wins regardless of score) and each intent
yields exactly one aggregated record — but within a single intent the same
document id can appear several times, once per matching keyword. -/
theorem c1_cross_intent_dedup (db : List Row) (pine : String → String)
    (intentKeywords : List (String × List String)) :
    List.Pairwise
        (fun a b => ∀ p ∈ a.2.dbResults, ∀ q ∈ b.2.dbResults, p.2.id ≠ q.2.id)
        (queryForMultipleIntents db pine intentKeywords) ∧
      (queryForMultipleIntents db pine intentKeywords).length = intentKeywords.length ∧
      ∀ i kws rest, queryForMultipleIntents db pine ((i, kws) :: rest) =
        (i, ⟨queryDbForKeywords db kws, pine (joinWith " " kws)⟩) ::
          qfmiAux db pine rest (queryDbForKeywords db kws) := by
  refine ⟨qfmiAux_pairwise db pine intentKeywords [],
    qfmiAux_length db pine intentKeywords [], ?_⟩
  intro i kws rest
  simp only [queryForMultipleIntents, qfmiAux, List.map_nil, List.nil_append]
  rw [List.filter_eq_self.mpr (fun a _ => by simp)]

/-! ### Claim C2 -/

/-- C2 counterexample: for the keyword `"alpha"` over a two-row store, the
`tags LIKE '%alpha%'` filter fetches only row 1, so no `(score, document)`
pair at all is computed for row 2 — scoring is not over the full document
set.  Moreover a row whose tags match two keywords of one intent receives
two separate `(score, row)` pairs rather than one accumulated score. -/
theorem c2_counterexample :
    (¬ ∀ r ∈ dbAlpha, ∃ p ∈ dbScores dbAlpha ["alpha"], p.2 = r) ∧
      (dbScores dbDup ["a", "b"]).map (fun p => p.2.id) = [1, 1] := by
  decide

/-- C2 (amended): for every keyword, `query_db_for_keywords` computes a
`(score, document)` pair for each document whose tags contain the keyword
as a case-insensitive substring (the SQL LIKE filter); no score floor
excludes any fetched pair before the final truncation — membership in the
pre-truncation accumulator depends only on the LIKE filter, never on the
score value — and the pair's score equals the sum, over the document's
comma-split tags, of the case-insensitive similarity ratio between the
keyword and the tag.  A document matching several keywords of one intent
contributes one separate pair per matching keyword. -/
theorem c2_scoring (db : List Row) (keywords : List String) (p : ℚ × Row) :
    dbScores db keywords =
        keywords.flatMap (fun kw => (execLike db kw).map (fun r => (rowScore kw r, r))) ∧
      (p ∈ dbScores db keywords ↔
        ∃ kw ∈ keywords, p.2 ∈ db ∧ likeMatch p.2.tags kw = true ∧
          p.1 = rowScore kw p.2) ∧
      ∀ kw r, rowScore kw r =
        ((splitOnChar ',' r.tags).map (fun tag => gestaltSim (pyLower kw) (pyLower tag))).sum :=
  ⟨dbScores_eq_flatMap db keywords, mem_dbScores, fun _ _ => rfl⟩

/-! ### Claim C3 -/

/-- C3 counterexample: keywords `["b", "a"]` over `dbTie` give both rows
the same score 1, but the output order is `[row 2, row 1]` — the entry of
the earlier keyword first — not the relational-store row order `[1, 2]`,
refuting "ties between equal scores broken by the original
relational-store row order". -/
theorem c3_counterexample :
    (queryDbForKeywords dbTie ["b", "a"]).map (fun p => p.2.id) = [2, 1] ∧
      (queryDbForKeywords dbTie ["b", "a"]).map (fun p => p.1) = [1, 1] ∧
      ((queryDbForKeywords dbTie ["b", "a"]).map (fun p => p.2.id) ≠ [1, 2]) := by
  decide

/-- C3 (amended): the per-intent match list has length at most 3 and is
sorted in non-increasing score order; ties between equal scores are broken
by position in the accumulated results list (keyword order first, then
store row order within one keyword) — i.e. the sort is a stable,
order-preserving permutation: restricted to any fixed score it returns the
accumulator's entries unchanged. -/
theorem c3_top3_sorted_stable (db : List Row) (keywords : List String) :
    (queryDbForKeywords db keywords).length ≤ 3 ∧
      List.Pairwise (fun a b => b.1 ≤ a.1) (queryDbForKeywords db keywords) ∧
      queryDbForKeywords db keywords = (sortDesc (dbScores db keywords)).take 3 ∧
      List.Perm (sortDesc (dbScores db keywords)) (dbScores db keywords) ∧
      ∀ s, (sortDesc (dbScores db keywords)).filter (fun p => decide (p.1 = s)) =
        (dbScores db keywords).filter (fun p => decide (p.1 = s)) := by
  refine ⟨?_, ?_, rfl, sortDesc_perm _, fun s => filter_sortDesc s _⟩
  · simp only [queryDbForKeywords]
    exact List.length_take_le 3 (sortDesc (dbScores db keywords))
  · exact (sortDesc_pairwise (dbScores db keywords)).sublist (List.take_sublist _ _)

/-! ### Claim C4 -/

/-- C4: the context handed to the answer-synthesis call is the assembled
context truncated by a hard prefix cutoff of its encoded token sequence at
the 4000-token budget, and — given that re-encoding a decoded token list
never yields more tokens than the list held — its measured token count
never exceeds 4000. -/
theorem c4_context_budget {τ : Type} (tok : Tokenizer τ) (o : Oracles)
    (query : String) (intentData : List (String × IntentData))
    (hlaw : ∀ ts : List τ, (tok.encode (tok.decode ts)).length ≤ ts.length) :
    numTokensFromString tok
        (truncateText tok (assembleContext o.showDb intentData) 4000) ≤ 4000 ∧
      truncateText tok (assembleContext o.showDb intentData) 4000 =
        tok.decode ((tok.encode (assembleContext o.showDb intentData)).take 4000) ∧
      generateMultiIntentAnswer tok o query intentData =
        o.synthesize query
          (truncateText tok (assembleContext o.showDb intentData) 4000) := by
  refine ⟨?_, rfl, rfl⟩
  exact le_trans (hlaw _) (List.length_take_le _ _)

/-- C4 witness: the character tokenizer satisfies the re-encoding law, and
the budget bound holds at a concrete intent-data input. -/
theorem c4_witness :
    numTokensFromString charTok
        (truncateText charTok
          (assembleContext trivOracles.showDb [("i", ⟨[], "ctx"⟩)]) 4000) ≤ 4000 :=
  (c4_context_budget charTok trivOracles "q" [("i", ⟨[], "ctx"⟩)]
    (fun _ => le_of_eq rfl)).1

/-! ### Claim C10 -/

/-- C10: when the encoding of the text is within the budget, truncation is
the identity, given the tokenizer's decode-after-encode round-trip law. -/
theorem c10_truncate_id {τ : Type} (tok : Tokenizer τ) (text : String)
    (maxTokens : Nat) (hrt : ∀ s, tok.decode (tok.encode s) = s)
    (hlen : (tok.encode text).length ≤ maxTokens) :
    truncateText tok text maxTokens = text := by
  unfold truncateText
  rw [List.take_of_length_le hlen, hrt]

/-- C10 witness: the character tokenizer satisfies the round-trip law and
a two-character text is returned unchanged under a budget of five. -/
theorem c10_witness : truncateText charTok "ab" 5 = "ab" :=
  c10_truncate_id charTok "ab" 5 (fun s => rfl) (by decide)

/-! ### Claim C7 -/

/-- C7: when intent extraction yields the empty intent list (an empty
stripped completion), the keyword and retrieval stages short-circuit to
empty results, but `get_answer` itself does not complete: the expression
`intent_keywords[intents[0]]` raises `IndexError` (modelled as `none`),
contradicting the claim that the pipeline completes without failing. -/
theorem c7_empty_intents {τ : Type} (db : List Row) (tok : Tokenizer τ)
    (o : Oracles) (llm : String → String) (query : String)
    (h : pyStrip (llm query) = "") :
    identifyIntents llm query = [] ∧
      queryForMultipleIntents db o.pinecone
        ((identifyIntents llm query).map (fun i => (i, o.keywordsFor i))) = [] ∧
      getAnswer db tok o query (identifyIntents llm query) = none := by
  have hi : identifyIntents llm query = [] := by
    unfold identifyIntents
    rw [h]
    rfl
  refine ⟨hi, ?_, ?_⟩ <;> rw [hi] <;> rfl

/-- C7 witness: a chat collaborator returning the empty completion makes
the whole pipeline reach the `IndexError`. -/
theorem c7_witness :
    identifyIntents (fun _ => "") "q" = [] ∧
      getAnswer [] charTok trivOracles "q" (identifyIntents (fun _ => "") "q") = none :=
  ⟨(c7_empty_intents [] charTok trivOracles (fun _ => "") "q" rfl).1,
    (c7_empty_intents [] charTok trivOracles (fun _ => "") "q" rfl).2.2⟩

/-! ### Claim C8 -/

/-- C8 counterexample: with healthy tracing, a wrapped call that fails on
its first invocation and succeeds on its second is invoked twice and the
wrapper returns the second outcome — the original error is swallowed, not
rethrown. -/
theorem c8_counterexample :
    (safeRunTree ⟨true, true⟩ flaky).1 = .ok 42 ∧
      (safeRunTree ⟨true, true⟩ flaky).1 ≠ .error 7 ∧
      (safeRunTree ⟨true, true⟩ flaky).2 = 2 := by
  refine ⟨rfl, ?_, rfl⟩
  intro h
  exact Except.noConfusion
    ((rfl : (safeRunTree ⟨true, true⟩ flaky).1 = Except.ok 42).symm.trans h)

/-- C8 (amended): a tracing failure never aborts the underlying
computation, and provided the wrapped call's outcome is the same on every
invocation, the wrapper yields exactly that outcome — the same result, or
the same error rethrown; but the wrapped function may be invoked a second
time (after a first-invocation error or a tracing failure), so an
invocation-dependent outcome can be replaced by the retry's outcome. -/
theorem c8_outcome_preserved {ε α : Type} (env : TraceEnv)
    (f : Nat → Except ε α) (r : Except ε α) (hdet : ∀ n, f n = r) :
    (safeRunTree env f).1 = r := by
  unfold safeRunTree
  rcases env with ⟨enterOk, endOk⟩
  cases enterOk
  · exact hdet 0
  · simp only [hdet 0, hdet 1]
    cases r
    · rfl
    · cases endOk <;> rfl

/-- C8 witness: a deterministic call's outcome survives a failing
`run.end`. -/
theorem c8_witness :
    (safeRunTree ⟨true, false⟩ (fun _ => (Except.ok 5 : Except Nat Nat))).1 =
      Except.ok 5 :=
  c8_outcome_preserved ⟨true, false⟩ _ _ (fun _ => rfl)

/-! ### Claim C5 -/

/-- Every line's chunk carries the line's text stripped, with header lines
additionally losing the `#` characters at the raw line's two ends. -/
theorem chunkText_classifyLine (line : String) :
    chunkText (classifyLine line) = normalizeLine line := by
  unfold classifyLine normalizeLine
  by_cases hb : isBulletLine line.data <;>
    by_cases hn : isNumberLine line.data <;>
      by_cases hh : isHeaderLine line.data <;>
        simp [hb, hn, hh, chunkText]

/-- A line that strips to the empty string is classified as an empty text
chunk. -/
theorem classifyLine_blank (line : String) (h : pyStrip line = "") :
    classifyLine line = Chunk.text "" := by
  have hs : stripChars isPyWs line.data = [] := congrArg String.data h
  have hall : ∀ x ∈ line.data.dropWhile isPyWs, isPyWs x := by
    intro x hx
    have h2 : (line.data.dropWhile isPyWs).reverse.dropWhile isPyWs = [] := by
      have := congrArg List.reverse hs
      simpa [stripChars] using this
    exact List.dropWhile_eq_nil_iff.mp h2 x (List.mem_reverse.mpr hx)
  have hd : line.data.dropWhile isPyWs = [] := by
    have h3 : (line.data.dropWhile isPyWs).dropWhile isPyWs = [] :=
      List.dropWhile_eq_nil_iff.mpr hall
    rwa [List.dropWhile_idempotent] at h3
  have hb : isBulletLine line.data = false := by
    unfold isBulletLine
    rw [hd]
  have hn : isNumberLine line.data = false := by
    unfold isNumberLine
    rw [hd]
    rfl
  have hh : isHeaderLine line.data = false := by
    unfold isHeaderLine
    rw [hs]
  unfold classifyLine
  rw [hb, hn, hh, h]
  rfl

/-- C5 counterexample: on the line `"  hello "` the produced chunk's text
is the stripped `"hello"`, so the chunk texts do not reproduce the input's
line sequence and re-joining them does not reconstruct the input. -/
theorem c5_counterexample :
    (formatResponse "  hello ").map chunkText ≠ splitOnChar (Char.ofNat 10) "  hello " ∧
      joinWith "\n" ((formatResponse "  hello ").map chunkText) ≠ "  hello " := by
  decide

/-- C5 (amended): `format_response` is total — exactly one chunk per input
line, blank lines becoming empty `Text` chunks — and the chunks' text
fields reproduce the input's line sequence up to the per-line
normalisation the formatter applies: each line stripped of surrounding
whitespace, header lines additionally losing the `#` characters at the raw
line's ends. -/
theorem c5_total_normalized (answer : String) :
    (formatResponse answer).length = (splitOnChar (Char.ofNat 10) answer).length ∧
      (formatResponse answer).map chunkText =
        (splitOnChar (Char.ofNat 10) answer).map normalizeLine ∧
      ∀ line ∈ splitOnChar (Char.ofNat 10) answer,
        pyStrip line = "" → classifyLine line = Chunk.text "" := by
  refine ⟨by simp [formatResponse], ?_, fun line _ h => classifyLine_blank line h⟩
  unfold formatResponse
  rw [List.map_map]
  exact List.map_congr_left (fun l _ => chunkText_classifyLine l)

/-- C5 witness: on a three-line input the chunk texts equal the normalised
lines, and the blank middle line yields an empty text chunk. -/
theorem c5_witness :
    (formatResponse "ab\n\ncd").map chunkText =
        (splitOnChar (Char.ofNat 10) "ab\n\ncd").map normalizeLine ∧
      classifyLine "" = Chunk.text "" :=
  ⟨(c5_total_normalized "ab\n\ncd").2.1,
    (c5_total_normalized "ab\n\ncd").2.2 "" (by decide) (by decide)⟩

/-! ### Claim C6 -/

/-- C6 counterexample: on the header line `"## Title ##"` the code
produces text `"Title"` — `strip('#')` removes the trailing `#` markers
too — while the claim's "remainder of the line after the leading `#`
markers, trimmed" is `"Title ##"`. -/
theorem c6_counterexample :
    classifyLine "## Title ##" = Chunk.header 2 "Title" ∧
      pyStrip ⟨"## Title ##".data.drop 2⟩ = "Title ##" ∧
      ("Title" : String) ≠ "Title ##" := by
  decide

/-- C6 (amended): a header-classified line yields a `Header` chunk whose
level is the count of leading `#` characters of the *stripped* line (at
least one), and whose text is the raw line with `#` characters removed
from both ends and the result trimmed — trailing `#` markers are removed
as well, and `#` characters not at the raw line's ends survive. -/
theorem c6_header_fields (line : String)
    (hb : isBulletLine line.data = false) (hn : isNumberLine line.data = false)
    (hh : isHeaderLine line.data = true) :
    classifyLine line =
        Chunk.header ((stripChars isPyWs line.data).takeWhile (fun c => c = '#')).length
          (pyStrip (stripHash line)) ∧
      1 ≤ ((stripChars isPyWs line.data).takeWhile (fun c => c = '#')).length := by
  constructor
  · simp [classifyLine, hb, hn, hh]
  · unfold isHeaderLine at hh
    cases hs : stripChars isPyWs line.data with
    | nil => rw [hs] at hh; exact absurd hh (by simp)
    | cons c cs =>
      rw [hs] at hh
      have hc : c = '#' := by simpa using hh
      subst hc
      simp [List.takeWhile]

/-- C6 witness: the amended field description instantiated on the line
`"# Head"`. -/
theorem c6_witness : classifyLine "# Head" = Chunk.header 1 "Head" :=
  ((c6_header_fields "# Head" (by decide) (by decide) (by decide)).1).trans (by decide)

/-! ### Claim C9 -/

/-- String append acts on the underlying character lists. -/
theorem data_append (a b : String) : (a ++ b).data = a.data ++ b.data := rfl

/-- Appending to a buffer extends it. -/
theorem extends_append (a s : String) : Extends a (a ++ s) :=
  ⟨s.data, rfl⟩

/-- Appending twice to a buffer extends it. -/
theorem extends_append2 (a s t : String) : Extends a (a ++ s ++ t) :=
  ⟨s.data ++ t.data, by simp [data_append]⟩

/-- The word-window loop only ever appends: starting buffer, the yielded
buffers in order, and the post-loop buffer with the paragraph break form a
prefix chain. -/
theorem textYields_chain : ∀ (gs : List (List String)) (buf : String),
    List.Chain' Extends
      ((buf :: (textYields buf gs).2) ++ [(textYields buf gs).1 ++ "\n\n"])
  | [], buf => by
    simp only [textYields, List.nil_append, List.cons_append]
    exact List.chain'_cons.mpr ⟨extends_append buf "\n\n", List.chain'_singleton _⟩
  | g :: gs, buf => by
    simp only [textYields, List.cons_append]
    refine List.Chain'.cons' (textYields_chain gs (buf ++ joinWith " " g ++ " ")) ?_
    intro y hy
    simp only [List.cons_append, List.head?_cons, Option.mem_def, Option.some.injEq] at hy
    exact hy ▸ extends_append2 buf (joinWith " " g) " "

/-- For each chunk, the yields starting from `buf` form a prefix chain,
and the last yield is the chunk's final buffer. -/
theorem chunkYields_chain (sh : Nat → String → String) (buf : String) :
    ∀ c : Chunk,
      List.Chain' Extends (buf :: (chunkYields sh buf c).2) ∧
        ∃ ys, (chunkYields sh buf c).2 = ys ++ [(chunkYields sh buf c).1]
  | .bullet t =>
    ⟨List.chain'_cons.mpr ⟨extends_append2 buf t "\n", List.chain'_singleton _⟩,
      [], rfl⟩
  | .number t =>
    ⟨List.chain'_cons.mpr ⟨extends_append2 buf t "\n", List.chain'_singleton _⟩,
      [], rfl⟩
  | .header lvl t =>
    ⟨List.chain'_cons.mpr
        ⟨⟨(sh lvl t).data ++ "\n".data ++ "\n".data, by simp [data_append]⟩,
          List.chain'_singleton _⟩,
      [], rfl⟩
  | .text t => by
    constructor
    · have := textYields_chain (windows5 (wordsOf t)) buf
      simpa [chunkYields] using this
    · exact ⟨(textYields buf (windows5 (wordsOf t))).2, rfl⟩

/-- The buffers yielded over a whole chunk list, starting from `buf`,
form a prefix chain with `buf` in front. -/
theorem streamYieldsFrom_chain (sh : Nat → String → String) :
    ∀ (chunks : List Chunk) (buf : String),
      List.Chain' Extends (buf :: streamYieldsFrom sh buf chunks)
  | [], buf => List.chain'_singleton buf
  | c :: cs, buf => by
    obtain ⟨hch, ys, hys⟩ := chunkYields_chain sh buf c
    have htail := streamYieldsFrom_chain sh cs (chunkYields sh buf c).1
    simp only [streamYieldsFrom]
    have hsplit : buf :: ((chunkYields sh buf c).2 ++
        streamYieldsFrom sh (chunkYields sh buf c).1 cs) =
        (buf :: (chunkYields sh buf c).2) ++
          streamYieldsFrom sh (chunkYields sh buf c).1 cs := by
      simp
    rw [hsplit]
    refine List.Chain'.append hch htail.tail ?_
    intro x hx y hy
    have hlast : (buf :: (chunkYields sh buf c).2).getLast? =
        some (chunkYields sh buf c).1 := by
      rw [hys]
      rw [show buf :: (ys ++ [(chunkYields sh buf c).1]) =
        (buf :: ys) ++ [(chunkYields sh buf c).1] from rfl]
      exact List.getLast?_concat _
    rw [hlast] at hx
    have hx2 : x = (chunkYields sh buf c).1 := by
      have := hx
      simp only [Option.mem_def, Option.some.injEq] at this
      exact this.symm
    subst hx2
    exact (List.chain'_cons'.mp htail).1 y hy

/-- C9: the buffer sequence yielded by `stream_formatted_response` grows
monotonically — every yielded buffer extends the immediately preceding
one — with bullet, numbered and header chunks appended whole (the header
followed by an extra blank line) in a single yield, and text chunks
appended window by window in five-word groups followed by a paragraph
break. -/
theorem c9_stream_monotone (sh : Nat → String → String) (chunks : List Chunk) :
    List.Chain' Extends (streamFormattedResponse sh chunks) ∧
      (∀ buf t, chunkYields sh buf (Chunk.bullet t) =
        (buf ++ t ++ "\n", [buf ++ t ++ "\n"])) ∧
      (∀ buf t, chunkYields sh buf (Chunk.number t) =
        (buf ++ t ++ "\n", [buf ++ t ++ "\n"])) ∧
      (∀ buf lvl t, chunkYields sh buf (Chunk.header lvl t) =
        (buf ++ sh lvl t ++ "\n" ++ "\n", [buf ++ sh lvl t ++ "\n" ++ "\n"])) ∧
      (∀ buf t, (chunkYields sh buf (Chunk.text t)).2 =
        (textYields buf (windows5 (wordsOf t))).2 ++
          [(textYields buf (windows5 (wordsOf t))).1 ++ "\n\n"]) :=
  ⟨(streamYieldsFrom_chain sh chunks "").tail, fun _ _ => rfl, fun _ _ => rfl,
    fun _ _ _ => rfl, fun _ _ => rfl⟩

end CollegeBuddy
